import Mathlib

/-!
# Verification of `flwr/server/history.py` (`History` metrics ledger)

Shallow embedding of the round ledger from `src/py/flwr/server/history.py`.
Python lists become Lean lists, Python dicts (which preserve insertion order)
become association lists with unique keys maintained by construction, and the
Python `int` round index becomes `Int`.  Metric/loss values are kept abstract
in a type parameter `V` (the source stores arbitrary scalars and performs no
arithmetic on them; the numeric rendering of a value is passed in as a
function `vshow`, and `pprint.pformat` of a metric table as a function
`pfmt`).  Fallible code (`reformat_json` on an empty series raises an
`IndexError` through numpy) returns `Option`.
-/

set_option autoImplicit false

universe u

variable {V : Type u}

/-- One metric table: a Python `Dict[str, List[Tuple[int, Scalar]]]`,
modelled as an insertion-ordered association list. -/
abbrev MetricTable (V : Type u) : Type u := List (String × List (Int × V))

/-- The `History` object's five accumulators (`__init__`). -/
structure History (V : Type u) where
  losses_distributed : List (Int × V)
  losses_centralized : List (Int × V)
  metrics_distributed_fit : MetricTable V
  metrics_distributed : MetricTable V
  metrics_centralized : MetricTable V
  deriving DecidableEq, Repr

/-- A freshly constructed `History()` : all five accumulators empty. -/
def History.init : History V :=
  { losses_distributed := []
    losses_centralized := []
    metrics_distributed_fit := []
    metrics_distributed := []
    metrics_centralized := [] }

/-- `self.losses_distributed.append((server_round, loss))`. -/
def History.add_loss_distributed (h : History V) (server_round : Int) (loss : V) :
    History V :=
  { h with losses_distributed := h.losses_distributed ++ [(server_round, loss)] }

/-- `self.losses_centralized.append((server_round, loss))`. -/
def History.add_loss_centralized (h : History V) (server_round : Int) (loss : V) :
    History V :=
  { h with losses_centralized := h.losses_centralized ++ [(server_round, loss)] }

/-- The dict update performed once per key by the three metrics appenders:
`if key not in d: d[key] = []` followed by `d[key].append(entry)` — extend the
entry of `key` when present, otherwise insert a fresh singleton entry at the
end (Python dicts append new keys at the end of the iteration order). -/
def dictAppend (tbl : MetricTable V) (key : String) (entry : Int × V) :
    MetricTable V :=
  match tbl with
  | [] => [(key, [entry])]
  | p :: rest =>
      if p.1 = key then (p.1, p.2 ++ [entry]) :: rest
      else p :: dictAppend rest key entry

/-- `d[key]` as a partial read of an association table. -/
def lookupSeries (tbl : MetricTable V) (key : String) : Option (List (Int × V)) :=
  match tbl with
  | [] => none
  | p :: rest => if p.1 = key then some p.2 else lookupSeries rest key

/-- `History.add_metrics_distributed_fit`: `for key in metrics:` append
`(server_round, metrics[key])` to that key's series (creating it if new).
The caller's dict is modelled as an association list in iteration order. -/
def History.add_metrics_distributed_fit (h : History V) (server_round : Int)
    (metrics : List (String × V)) : History V :=
  { h with metrics_distributed_fit :=
      (metrics.foldl (fun tbl kv => dictAppend tbl kv.1 (server_round, kv.2))
        h.metrics_distributed_fit) }

/-- `History.add_metrics_distributed`: same loop targeting
`self.metrics_distributed`. -/
def History.add_metrics_distributed (h : History V) (server_round : Int)
    (metrics : List (String × V)) : History V :=
  { h with metrics_distributed :=
      (metrics.foldl (fun tbl kv => dictAppend tbl kv.1 (server_round, kv.2))
        h.metrics_distributed) }

/-- `History.add_metrics_centralized`: same loop targeting
`self.metrics_centralized`. -/
def History.add_metrics_centralized (h : History V) (server_round : Int)
    (metrics : List (String × V)) : History V :=
  { h with metrics_centralized :=
      (metrics.foldl (fun tbl kv => dictAppend tbl kv.1 (server_round, kv.2))
        h.metrics_centralized) }

/-- The dictionary `reformat_json` returns: an optional `"start"` entry and a
`"rounds"` list (a Python dict is a finite map, so field order is immaterial). -/
structure ReformatResult (V : Type u) where
  start : Option V
  rounds : List V
  deriving DecidableEq, Repr

/-- `History.reformat_json`: `temp_all = np.array(bad_array)`; if
`temp_all[0,0] == 0` the result maps `"rounds"` to `temp_all[1:,1].tolist()`
and `"start"` to `temp_all[0,1]`, else `"rounds"` to `temp_all[:,1].tolist()`.
On an empty series `temp_all[0,0]` raises `IndexError`, embedded as `none`. -/
def History.reformat_json (bad_array : List (Int × V)) :
    Option (ReformatResult V) :=
  match bad_array with
  | [] => none
  | first :: _ =>
      if first.1 = 0 then
        some { start := some first.2
               rounds := (bad_array.drop 1).map Prod.snd }
      else
        some { start := none
               rounds := bad_array.map Prod.snd }

/-- The round-collapsing transform as the specification words it: if the first
stored entry's round index equals 0 the output is `start` = that first value
together with the remaining values in stored order, otherwise all values in
stored order (stated on non-empty series; the `[]` case is arbitrary). -/
def reformatSpec (series : List (Int × V)) : ReformatResult V :=
  match series with
  | [] => { start := none, rounds := [] }
  | (r0, v0) :: rest =>
      if r0 = 0 then { start := some v0, rounds := rest.map Prod.snd }
      else { start := none, rounds := v0 :: rest.map Prod.snd }

/-- The section loop of `repr_json` over one metric table: for each key `x` in
order, `temp.update({x: self.reformat_json(tbl[x])})`; `none` if any key's
series makes `reformat_json` raise. -/
def mapReformat (tbl : MetricTable V) : Option (List (String × ReformatResult V)) :=
  match tbl with
  | [] => some []
  | p :: rest =>
      (History.reformat_json p.2).bind fun r =>
        (mapReformat rest).map fun rs => (p.1, r) :: rs

/-- The value stored under one section name of the structured report: either a
collapsed loss series or a per-metric-name mapping of collapsed series. -/
inductive SectionVal (V : Type u) where
  | loss (r : ReformatResult V)
  | metrics (m : List (String × ReformatResult V))
  deriving DecidableEq, Repr

/-- The structured report: a Python dict from section name to section value,
modelled as an insertion-ordered association list. -/
abbrev StructReport (V : Type u) : Type u := List (String × SectionVal V)

/-- One `if self.losses_X: rep.update({name: self.reformat_json(...)})` step
of `repr_json`. -/
def sectLoss (name : String) (l : List (Int × V)) : Option (StructReport V) :=
  if l.isEmpty then some []
  else (History.reformat_json l).map fun r => [(name, SectionVal.loss r)]

/-- One `if self.metrics_X: ... rep.update({name: temp})` step of
`repr_json`. -/
def sectMetrics (name : String) (tbl : MetricTable V) : Option (StructReport V) :=
  if tbl.isEmpty then some []
  else (mapReformat tbl).map fun m => [(name, SectionVal.metrics m)]

/-- `History.repr_json`: build `rep` by conditionally adding the five sections
in source order, each guarded by the truthiness (non-emptiness) of its
accumulator. -/
def History.repr_json (h : History V) : Option (StructReport V) :=
  (sectLoss "History (loss, distributed)" h.losses_distributed).bind fun s1 =>
  (sectLoss "History (loss, centralized)" h.losses_centralized).bind fun s2 =>
  (sectMetrics "History (metrics, distributed, fit)" h.metrics_distributed_fit).bind fun s3 =>
  (sectMetrics "History (metrics, distributed, evaluate)" h.metrics_distributed).bind fun s4 =>
  (sectMetrics "History (metrics, centralized)" h.metrics_centralized).map fun s5 =>
  s1 ++ s2 ++ s3 ++ s4 ++ s5

/-- The structured report as the specification words it: an entry exactly for
each non-empty section, keyed by the five text-report header names, losses
carrying the round-collapsing transform of their series and metric tables
carrying it per metric name. -/
def reprJsonSpec (h : History V) : StructReport V :=
  (if h.losses_distributed.isEmpty then [] else
    [("History (loss, distributed)", SectionVal.loss (reformatSpec h.losses_distributed))]) ++
  (if h.losses_centralized.isEmpty then [] else
    [("History (loss, centralized)", SectionVal.loss (reformatSpec h.losses_centralized))]) ++
  (if h.metrics_distributed_fit.isEmpty then [] else
    [("History (metrics, distributed, fit)",
      SectionVal.metrics (h.metrics_distributed_fit.map fun p => (p.1, reformatSpec p.2)))]) ++
  (if h.metrics_distributed.isEmpty then [] else
    [("History (metrics, distributed, evaluate)",
      SectionVal.metrics (h.metrics_distributed.map fun p => (p.1, reformatSpec p.2)))]) ++
  (if h.metrics_centralized.isEmpty then [] else
    [("History (metrics, centralized)",
      SectionVal.metrics (h.metrics_centralized.map fun p => (p.1, reformatSpec p.2)))])

/-- Well-formedness of a metric table: every key's series is non-empty (keys
are only ever created together with a first appended pair). -/
def WFtable (tbl : MetricTable V) : Prop := ∀ p ∈ tbl, p.2 ≠ []

/-- Well-formedness of a ledger state: all three metric tables are
well-formed. -/
def History.WF (h : History V) : Prop :=
  WFtable h.metrics_distributed_fit ∧ WFtable h.metrics_distributed ∧
    WFtable h.metrics_centralized

/-- `functools.reduce(lambda a, b: a + b, strings)`: left fold of string
concatenation seeded with the first element.  The source applies it only to
non-empty lists (guarded by section non-emptiness); `reduce` on `[]` would
raise, and the `[]` case here is unreachable under those guards. -/
def reduceConcat (strings : List String) : String :=
  match strings with
  | [] => ""
  | a :: rest => rest.foldl (· ++ ·) a

/-- The f-string lines of a loss section of `__repr__`:
`f"\tround {server_round}: {loss}\n"` per entry, in stored order. -/
def lossLines (vshow : V → String) (l : List (Int × V)) : List String :=
  l.map fun p => "\tround " ++ toString p.1 ++ ": " ++ vshow p.2 ++ "\n"

/-- The body of a loss section of `__repr__`: the reduce-concatenation of its
per-entry lines. -/
def lossSectionBody (vshow : V → String) (l : List (Int × V)) : String :=
  reduceConcat (lossLines vshow l)

/-- `History.__repr__`: sequential `rep += ...` over the five sections, each
guarded by non-emptiness, in source order.  `vshow` renders a stored value the
way the Python f-string renders `loss`; `pfmt` stands for `pprint.pformat` on a
metric table.  The last section has no trailing newline in the source. -/
def History.reprStr (vshow : V → String) (pfmt : MetricTable V → String)
    (h : History V) : String :=
  (if h.losses_distributed.isEmpty then "" else
    "History (loss, distributed):\n" ++ lossSectionBody vshow h.losses_distributed) ++
  (if h.losses_centralized.isEmpty then "" else
    "History (loss, centralized):\n" ++ lossSectionBody vshow h.losses_centralized) ++
  (if h.metrics_distributed_fit.isEmpty then "" else
    "History (metrics, distributed, fit):\n" ++ pfmt h.metrics_distributed_fit ++ "\n") ++
  (if h.metrics_distributed.isEmpty then "" else
    "History (metrics, distributed, evaluate):\n" ++ pfmt h.metrics_distributed ++ "\n") ++
  (if h.metrics_centralized.isEmpty then "" else
    "History (metrics, centralized):\n" ++ pfmt h.metrics_centralized)

/-- The text report as the specification words it: the list of rendered
non-empty sections, each a header line naming the section followed by its
body, in the fixed order distributed loss, centralized loss, distributed-fit
metrics, distributed-evaluate metrics, centralized metrics. -/
def reportSections (vshow : V → String) (pfmt : MetricTable V → String)
    (h : History V) : List String :=
  (if h.losses_distributed.isEmpty then [] else
    ["History (loss, distributed):\n" ++ lossSectionBody vshow h.losses_distributed]) ++
  (if h.losses_centralized.isEmpty then [] else
    ["History (loss, centralized):\n" ++ lossSectionBody vshow h.losses_centralized]) ++
  (if h.metrics_distributed_fit.isEmpty then [] else
    ["History (metrics, distributed, fit):\n" ++ pfmt h.metrics_distributed_fit ++ "\n"]) ++
  (if h.metrics_distributed.isEmpty then [] else
    ["History (metrics, distributed, evaluate):\n" ++ pfmt h.metrics_distributed ++ "\n"]) ++
  (if h.metrics_centralized.isEmpty then [] else
    ["History (metrics, centralized):\n" ++ pfmt h.metrics_centralized])

/-- Ordered concatenation of a list of strings (the spec-side joining of the
section list). -/
def strConcat (strings : List String) : String := strings.foldr (· ++ ·) ""

/-- `__repr__` with the object state threaded explicitly: the method reads the
five accumulators and assigns none of them, so it returns the state it was
given. -/
def History.reprStr_run (vshow : V → String) (pfmt : MetricTable V → String)
    (h : History V) : String × History V :=
  (History.reprStr vshow pfmt h, h)

/-- `repr_json` with the object state threaded explicitly: the method reads
the five accumulators and assigns none of them. -/
def History.repr_json_run (h : History V) : Option (StructReport V) × History V :=
  (History.repr_json h, h)

/-- One call to one of the five append operations. -/
inductive HistOp (V : Type u) where
  | addLossDistributed (server_round : Int) (loss : V)
  | addLossCentralized (server_round : Int) (loss : V)
  | addMetricsDistributedFit (server_round : Int) (metrics : List (String × V))
  | addMetricsDistributed (server_round : Int) (metrics : List (String × V))
  | addMetricsCentralized (server_round : Int) (metrics : List (String × V))
  deriving DecidableEq, Repr

/-- Dispatch one append call to the ledger. -/
def applyOp (h : History V) : HistOp V → History V
  | .addLossDistributed r v => h.add_loss_distributed r v
  | .addLossCentralized r v => h.add_loss_centralized r v
  | .addMetricsDistributedFit r m => h.add_metrics_distributed_fit r m
  | .addMetricsDistributed r m => h.add_metrics_distributed r m
  | .addMetricsCentralized r m => h.add_metrics_centralized r m

/-- The ledger state reached from a fresh `History()` by a sequence of append
calls, in call order. -/
def applyOps (ops : List (HistOp V)) : History V :=
  ops.foldl applyOp History.init

/-- The pairs one call contributes to the distributed loss series. -/
def opLossDistributed : HistOp V → List (Int × V)
  | .addLossDistributed r v => [(r, v)]
  | _ => []

/-- The pairs one call contributes to the centralized loss series. -/
def opLossCentralized : HistOp V → List (Int × V)
  | .addLossCentralized r v => [(r, v)]
  | _ => []

/-- The pairs one call contributes to metric key `k` of the distributed-fit
table. -/
def opFitPairs (k : String) : HistOp V → List (Int × V)
  | .addMetricsDistributedFit r m =>
      (m.filter fun kv => kv.1 == k).map fun kv => (r, kv.2)
  | _ => []

/-- The pairs one call contributes to metric key `k` of the
distributed-evaluate table. -/
def opEvalPairs (k : String) : HistOp V → List (Int × V)
  | .addMetricsDistributed r m =>
      (m.filter fun kv => kv.1 == k).map fun kv => (r, kv.2)
  | _ => []

/-- The pairs one call contributes to metric key `k` of the centralized
table. -/
def opCentPairs (k : String) : HistOp V → List (Int × V)
  | .addMetricsCentralized r m =>
      (m.filter fun kv => kv.1 == k).map fun kv => (r, kv.2)
  | _ => []

/-- A series that is `none` (key never seen) exactly when the list of appended
pairs is empty. -/
def optOf (l : List (Int × V)) : Option (List (Int × V)) :=
  if l.isEmpty then none else some l

/-- Appending a batch of pairs to a possibly-absent series: an absent key
stays absent on an empty batch and otherwise comes into existence with exactly
the batch. -/
def optAppend (o : Option (List (Int × V))) (new : List (Int × V)) :
    Option (List (Int × V)) :=
  match o with
  | some s => some (s ++ new)
  | none => optOf new

instance (tbl : MetricTable V) : Decidable (WFtable tbl) :=
  decidable_of_iff (∀ p ∈ tbl, ¬p.2.isEmpty) (by simp [WFtable, List.isEmpty_iff])

instance (h : History V) : Decidable h.WF :=
  inferInstanceAs (Decidable (WFtable h.metrics_distributed_fit ∧
    WFtable h.metrics_distributed ∧ WFtable h.metrics_centralized))

/-- Concrete ledger for the end-to-end structured-report scenario: centralized
losses (0, 0.9), (1, 0.5), (2, 0.3). -/
def exampleCentralized : History ℚ :=
  ((History.init.add_loss_centralized 0 (9/10)).add_loss_centralized 1
    (1/2)).add_loss_centralized 2 (3/10)

/-- Concrete ledger with one distributed-fit metric key. -/
def exampleFit : History ℚ :=
  History.init.add_metrics_distributed_fit 1 [("accuracy", 1/10)]

/-- A stand-in for `pprint.pformat` on rendered examples. -/
def pfmtNull : MetricTable String → String := fun _ => ""

/-- Whether a call is an `add_loss_distributed` call. -/
def isAddLossDistributed : HistOp V → Bool
  | .addLossDistributed _ _ => true
  | _ => false

/-- Whether a call is an `add_loss_centralized` call. -/
def isAddLossCentralized : HistOp V → Bool
  | .addLossCentralized _ _ => true
  | _ => false

/-- Concrete ledger with one distributed loss entry; its values are rendered
strings, so the f-string value rendering is the identity. -/
def exampleLossString : History String :=
  History.init.add_loss_distributed 0 "0.5"

/-- C1: the round-collapsing transform on every non-empty series splits off the
first value as `"start"` exactly when the first round index is 0, keeping the
remaining values in stored order, including the two concrete examples. -/
theorem reformat_json_c1 :
    (∀ (W : Type) (r0 : Int) (v0 : W) (rest : List (Int × W)),
        History.reformat_json ((r0, v0) :: rest) =
          some (if r0 = 0
            then { start := some v0, rounds := rest.map Prod.snd }
            else { start := none, rounds := v0 :: rest.map Prod.snd })) ∧
    History.reformat_json [((0 : Int), (1 : ℚ)), (1, 2), (2, 3)] =
      some { start := some 1, rounds := [2, 3] } ∧
    History.reformat_json [((1 : Int), (5 : ℚ)), (2, 6)] =
      some { start := none, rounds := [5, 6] } := by
  refine ⟨fun W r0 v0 rest => ?_, by decide, by decide⟩
  by_cases h0 : r0 = 0 <;> simp [History.reformat_json, h0]

theorem strConcat_nil : strConcat [] = "" := rfl

theorem strConcat_cons (s : String) (l : List String) :
    strConcat (s :: l) = s ++ strConcat l := rfl

theorem strConcat_append (a b : List String) :
    strConcat (a ++ b) = strConcat a ++ strConcat b := by
  induction a with
  | nil => simp [strConcat_nil]
  | cons s rest ih => simp [strConcat_cons, ih, String.append_assoc]

theorem foldl_strAppend (rest : List String) (a : String) :
    rest.foldl (· ++ ·) a = a ++ strConcat rest := by
  induction rest generalizing a with
  | nil => simp [strConcat_nil]
  | cons b rest ih => simp [strConcat_cons, ih, String.append_assoc]

theorem reduceConcat_eq_strConcat (l : List String) :
    reduceConcat l = strConcat l := by
  cases l with
  | nil => rfl
  | cons a rest => simp [reduceConcat, strConcat_cons, foldl_strAppend]

theorem lookup_dictAppend (tbl : MetricTable V) (key : String) (entry : Int × V)
    (k : String) :
    lookupSeries (dictAppend tbl key entry) k =
      if k = key then optAppend (lookupSeries tbl k) [entry]
      else lookupSeries tbl k := by
  induction tbl with
  | nil =>
      by_cases hk : k = key
      · simp [dictAppend, lookupSeries, hk, optAppend, optOf]
      · have hk2 : ¬key = k := fun hc => hk hc.symm
        simp [dictAppend, lookupSeries, hk, hk2, optAppend, optOf]
  | cons p rest ih =>
      by_cases hp : p.1 = key
      · by_cases hk : k = key
        · have hpk : p.1 = k := by rw [hp, hk]
          simp [dictAppend, lookupSeries, hp, hk, hpk, optAppend]
        · have hpk : ¬p.1 = k := fun hc => hk (by rw [← hc, hp])
          have hk2 : ¬key = k := fun hc => hk hc.symm
          simp [dictAppend, lookupSeries, hp, hk, hpk, hk2]
      · by_cases hpk : p.1 = k
        · have hk : ¬k = key := fun hc => hp (by rw [hpk, hc])
          simp [dictAppend, lookupSeries, hp, hk, hpk]
        · simp [dictAppend, lookupSeries, hp, hpk, ih]

theorem optAppend_nil (o : Option (List (Int × V))) : optAppend o [] = o := by
  cases o with
  | none => rfl
  | some s => simp [optAppend]

theorem optAppend_single_cons (o : Option (List (Int × V))) (x : Int × V)
    (rest : List (Int × V)) :
    optAppend (optAppend o [x]) rest = optAppend o (x :: rest) := by
  cases o with
  | none => simp [optAppend, optOf]
  | some s => simp [optAppend]

theorem optAppend_optOf (a b : List (Int × V)) :
    optAppend (optOf a) b = optOf (a ++ b) := by
  cases a with
  | nil => simp [optOf, optAppend]
  | cons x rest =>
      simp [optOf, optAppend]

theorem optOf_getD (l : List (Int × V)) : (optOf l).getD [] = l := by
  cases l <;> simp [optOf]

theorem lookup_foldl_dictAppend (r : Int) (m : List (String × V))
    (tbl : MetricTable V) (k : String) :
    lookupSeries (m.foldl (fun t kv => dictAppend t kv.1 (r, kv.2)) tbl) k =
      optAppend (lookupSeries tbl k)
        ((m.filter fun kv => kv.1 == k).map fun kv => (r, kv.2)) := by
  induction m generalizing tbl with
  | nil => simp [optAppend_nil]
  | cons q rest ih =>
      by_cases hk : q.1 = k
      · have hflt : List.filter (fun kv => kv.1 == k) (q :: rest) =
            q :: List.filter (fun kv => kv.1 == k) rest := by
          simp [List.filter_cons, hk]
        rw [List.foldl_cons, ih, lookup_dictAppend, if_pos hk.symm,
          optAppend_single_cons, hflt, List.map_cons]
      · have hk2 : ¬k = q.1 := fun hc => hk hc.symm
        have hflt : List.filter (fun kv => kv.1 == k) (q :: rest) =
            List.filter (fun kv => kv.1 == k) rest := by
          simp [List.filter_cons, hk]
        rw [List.foldl_cons, ih, lookup_dictAppend, if_neg hk2, hflt]

theorem applyOp_losses_distributed (h : History V) (op : HistOp V) :
    (applyOp h op).losses_distributed =
      h.losses_distributed ++ opLossDistributed op := by
  cases op <;>
    simp [applyOp, opLossDistributed, History.add_loss_distributed,
      History.add_loss_centralized, History.add_metrics_distributed_fit,
      History.add_metrics_distributed, History.add_metrics_centralized]

theorem applyOp_losses_centralized (h : History V) (op : HistOp V) :
    (applyOp h op).losses_centralized =
      h.losses_centralized ++ opLossCentralized op := by
  cases op <;>
    simp [applyOp, opLossCentralized, History.add_loss_distributed,
      History.add_loss_centralized, History.add_metrics_distributed_fit,
      History.add_metrics_distributed, History.add_metrics_centralized]

theorem applyOp_fit_lookup (h : History V) (op : HistOp V) (k : String) :
    lookupSeries (applyOp h op).metrics_distributed_fit k =
      optAppend (lookupSeries h.metrics_distributed_fit k) (opFitPairs k op) := by
  cases op <;>
    simp [applyOp, opFitPairs, History.add_loss_distributed,
      History.add_loss_centralized, History.add_metrics_distributed_fit,
      History.add_metrics_distributed, History.add_metrics_centralized,
      lookup_foldl_dictAppend, optAppend_nil]

theorem applyOp_eval_lookup (h : History V) (op : HistOp V) (k : String) :
    lookupSeries (applyOp h op).metrics_distributed k =
      optAppend (lookupSeries h.metrics_distributed k) (opEvalPairs k op) := by
  cases op <;>
    simp [applyOp, opEvalPairs, History.add_loss_distributed,
      History.add_loss_centralized, History.add_metrics_distributed_fit,
      History.add_metrics_distributed, History.add_metrics_centralized,
      lookup_foldl_dictAppend, optAppend_nil]

theorem applyOp_cent_lookup (h : History V) (op : HistOp V) (k : String) :
    lookupSeries (applyOp h op).metrics_centralized k =
      optAppend (lookupSeries h.metrics_centralized k) (opCentPairs k op) := by
  cases op <;>
    simp [applyOp, opCentPairs, History.add_loss_distributed,
      History.add_loss_centralized, History.add_metrics_distributed_fit,
      History.add_metrics_distributed, History.add_metrics_centralized,
      lookup_foldl_dictAppend, optAppend_nil]

theorem applyOps_append (ops : List (HistOp V)) (op : HistOp V) :
    applyOps (ops ++ [op]) = applyOp (applyOps ops) op := by
  simp [applyOps, List.foldl_append]

theorem applyOps_losses_distributed (ops : List (HistOp V)) :
    (applyOps ops).losses_distributed = ops.flatMap opLossDistributed := by
  induction ops using List.reverseRecOn with
  | nil => rfl
  | append_singleton ops op ih =>
      simp [applyOps_append, applyOp_losses_distributed, ih]

theorem applyOps_losses_centralized (ops : List (HistOp V)) :
    (applyOps ops).losses_centralized = ops.flatMap opLossCentralized := by
  induction ops using List.reverseRecOn with
  | nil => rfl
  | append_singleton ops op ih =>
      simp [applyOps_append, applyOp_losses_centralized, ih]

theorem applyOps_fit_lookup (ops : List (HistOp V)) (k : String) :
    lookupSeries (applyOps ops).metrics_distributed_fit k =
      optOf (ops.flatMap (opFitPairs k)) := by
  induction ops using List.reverseRecOn with
  | nil => rfl
  | append_singleton ops op ih =>
      simp [applyOps_append, applyOp_fit_lookup, ih, optAppend_optOf]

theorem applyOps_eval_lookup (ops : List (HistOp V)) (k : String) :
    lookupSeries (applyOps ops).metrics_distributed k =
      optOf (ops.flatMap (opEvalPairs k)) := by
  induction ops using List.reverseRecOn with
  | nil => rfl
  | append_singleton ops op ih =>
      simp [applyOps_append, applyOp_eval_lookup, ih, optAppend_optOf]

theorem applyOps_cent_lookup (ops : List (HistOp V)) (k : String) :
    lookupSeries (applyOps ops).metrics_centralized k =
      optOf (ops.flatMap (opCentPairs k)) := by
  induction ops using List.reverseRecOn with
  | nil => rfl
  | append_singleton ops op ih =>
      simp [applyOps_append, applyOp_cent_lookup, ih, optAppend_optOf]

theorem WFtable_dictAppend (tbl : MetricTable V) (key : String) (entry : Int × V)
    (hw : WFtable tbl) : WFtable (dictAppend tbl key entry) := by
  induction tbl with
  | nil =>
      intro p hp
      simp [dictAppend] at hp
      simp [hp]
  | cons q rest ih =>
      intro p hp
      by_cases hq : q.1 = key
      · simp [dictAppend, hq] at hp
        rcases hp with hp | hp
        · simp [hp]
        · exact hw p (List.mem_cons_of_mem q hp)
      · simp [dictAppend, hq] at hp
        rcases hp with hp | hp
        · exact hw p (hp ▸ List.mem_cons_self q rest)
        · exact ih (fun x hx => hw x (List.mem_cons_of_mem q hx)) p hp

theorem WFtable_foldl (r : Int) (m : List (String × V)) (tbl : MetricTable V)
    (hw : WFtable tbl) :
    WFtable (m.foldl (fun t kv => dictAppend t kv.1 (r, kv.2)) tbl) := by
  induction m generalizing tbl with
  | nil => exact hw
  | cons q rest ih =>
      exact ih (dictAppend tbl q.1 (r, q.2)) (WFtable_dictAppend tbl q.1 (r, q.2) hw)

theorem WF_applyOp (h : History V) (op : HistOp V) (hw : h.WF) :
    (applyOp h op).WF := by
  obtain ⟨w1, w2, w3⟩ := hw
  cases op <;>
    exact ⟨by first
            | exact w1
            | exact WFtable_foldl _ _ _ w1,
           by first
            | exact w2
            | exact WFtable_foldl _ _ _ w2,
           by first
            | exact w3
            | exact WFtable_foldl _ _ _ w3⟩

theorem WF_applyOps (ops : List (HistOp V)) : (applyOps ops).WF := by
  have base : (History.init (V := V)).WF :=
    ⟨fun p hp => absurd hp (List.not_mem_nil p),
     fun p hp => absurd hp (List.not_mem_nil p),
     fun p hp => absurd hp (List.not_mem_nil p)⟩
  have gen : ∀ (l : List (HistOp V)) (h : History V), h.WF → (l.foldl applyOp h).WF := by
    intro l
    induction l with
    | nil => exact fun h hw => hw
    | cons op rest ih => exact fun h hw => ih (applyOp h op) (WF_applyOp h op hw)
  exact gen ops History.init base

theorem reformat_json_eq_spec (l : List (Int × V)) (hl : l ≠ []) :
    History.reformat_json l = some (reformatSpec l) := by
  cases l with
  | nil => exact absurd rfl hl
  | cons first rest =>
      obtain ⟨r0, v0⟩ := first
      by_cases h0 : r0 = 0 <;> simp [History.reformat_json, reformatSpec, h0]

theorem sectLoss_eq (name : String) (l : List (Int × V)) :
    sectLoss name l =
      some (if l.isEmpty then []
        else [(name, SectionVal.loss (reformatSpec l))]) := by
  by_cases he : l.isEmpty
  · simp [sectLoss, he]
  · have hl : l ≠ [] := by
      intro hc
      exact he (by simp [hc])
    simp [sectLoss, he, reformat_json_eq_spec l hl]

theorem mapReformat_eq (tbl : MetricTable V) (hw : WFtable tbl) :
    mapReformat tbl = some (tbl.map fun p => (p.1, reformatSpec p.2)) := by
  induction tbl with
  | nil => rfl
  | cons p rest ih =>
      have hp : p.2 ≠ [] := hw p (List.mem_cons_self p rest)
      have hrest : WFtable rest := fun x hx => hw x (List.mem_cons_of_mem p hx)
      simp [mapReformat, reformat_json_eq_spec p.2 hp, ih hrest]

theorem sectMetrics_eq (name : String) (tbl : MetricTable V) (hw : WFtable tbl) :
    sectMetrics name tbl =
      some (if tbl.isEmpty then []
        else [(name, SectionVal.metrics (tbl.map fun p => (p.1, reformatSpec p.2)))]) := by
  by_cases he : tbl.isEmpty
  · simp [sectMetrics, he]
  · simp [sectMetrics, he, mapReformat_eq tbl hw]

theorem repr_json_eq_spec (h : History V) (hw : h.WF) :
    History.repr_json h = some (reprJsonSpec h) := by
  obtain ⟨w1, w2, w3⟩ := hw
  rw [History.repr_json, sectLoss_eq, sectLoss_eq, sectMetrics_eq _ _ w1,
    sectMetrics_eq _ _ w2, sectMetrics_eq _ _ w3]
  simp [reprJsonSpec]

theorem length_flatMap_lossDistributed (ops : List (HistOp V)) :
    (ops.flatMap opLossDistributed).length = ops.countP isAddLossDistributed := by
  induction ops with
  | nil => rfl
  | cons op rest ih =>
      cases op <;>
        simp [opLossDistributed, isAddLossDistributed, List.countP_cons, ih,
          Nat.add_comm]

theorem length_flatMap_lossCentralized (ops : List (HistOp V)) :
    (ops.flatMap opLossCentralized).length = ops.countP isAddLossCentralized := by
  induction ops with
  | nil => rfl
  | cons op rest ih =>
      cases op <;>
        simp [opLossCentralized, isAddLossCentralized, List.countP_cons, ih,
          Nat.add_comm]

theorem strConcat_if (c : Prop) [Decidable c] (s : String) :
    strConcat (if c then [] else [s]) = if c then "" else s := by
  split <;> simp [strConcat]

theorem lookup_foldl_not_mem (r : Int) (m : List (String × V))
    (tbl : MetricTable V) (k : String) (hk : k ∉ m.map Prod.fst) :
    lookupSeries (m.foldl (fun t kv => dictAppend t kv.1 (r, kv.2)) tbl) k =
      lookupSeries tbl k := by
  rw [lookup_foldl_dictAppend]
  have hf : (m.filter fun kv => kv.1 == k) = [] := by
    rw [List.filter_eq_nil_iff]
    intro a ha hbeq
    have hc : a.1 = k := by simpa using hbeq
    exact hk (hc ▸ List.mem_map_of_mem Prod.fst ha)
  rw [hf, List.map_nil, optAppend_nil]

/-- C2: on every well-formed ledger state, `repr_json` returns the mapping
described by the specification — an entry exactly for each non-empty section,
keyed by the five text-report header names, with the round-collapsing
transform applied to the loss series directly and to each metric name's
series inside the metrics sections — and on a freshly created ledger it
returns the empty mapping. -/
theorem structured_report_c2 :
    (∀ (W : Type u) (h : History W), h.WF →
      History.repr_json h = some (reprJsonSpec h)) ∧
    (∀ (W : Type u), History.repr_json (History.init (V := W)) = some []) := by
  refine ⟨fun W h hw => repr_json_eq_spec h hw, fun W => ?_⟩
  have hw : (History.init (V := W)).WF :=
    ⟨fun p hp => absurd hp (List.not_mem_nil p),
     fun p hp => absurd hp (List.not_mem_nil p),
     fun p hp => absurd hp (List.not_mem_nil p)⟩
  rw [repr_json_eq_spec _ hw]
  simp [reprJsonSpec, History.init]

/-- Witness for C2: after appending centralized losses (0, 0.9), (1, 0.5),
(2, 0.3), the structured report holds exactly the centralized-loss section
with start 0.9 and rounds [0.5, 0.3]. -/
theorem structured_report_c2_witness :
    History.repr_json exampleCentralized = some (reprJsonSpec exampleCentralized) ∧
    reprJsonSpec exampleCentralized =
      [("History (loss, centralized)",
        SectionVal.loss { start := some ((9 : ℚ)/10),
                          rounds := [(1 : ℚ)/2, (3 : ℚ)/10] })] :=
  ⟨structured_report_c2.1 ℚ exampleCentralized (by decide), rfl⟩

/-- C3: after any sequence of append calls starting from a fresh ledger, each
loss series is exactly the pairs passed to its own append operation in call
order, each metric key's series is exactly the pairs appended under that key
in call order (a key is absent exactly when it was never mentioned), and the
lengths equal the number of calls (per metric key for the metrics
operations). -/
theorem appends_extend_c3 :
    ∀ (W : Type u) (ops : List (HistOp W)),
      (applyOps ops).losses_distributed = ops.flatMap opLossDistributed ∧
      (applyOps ops).losses_centralized = ops.flatMap opLossCentralized ∧
      (∀ k, lookupSeries (applyOps ops).metrics_distributed_fit k =
        optOf (ops.flatMap (opFitPairs k))) ∧
      (∀ k, lookupSeries (applyOps ops).metrics_distributed k =
        optOf (ops.flatMap (opEvalPairs k))) ∧
      (∀ k, lookupSeries (applyOps ops).metrics_centralized k =
        optOf (ops.flatMap (opCentPairs k))) ∧
      (applyOps ops).losses_distributed.length = ops.countP isAddLossDistributed ∧
      (applyOps ops).losses_centralized.length = ops.countP isAddLossCentralized ∧
      (∀ k, ((lookupSeries (applyOps ops).metrics_distributed_fit k).getD []).length =
        (ops.map fun op => (opFitPairs k op).length).sum) ∧
      (∀ k, ((lookupSeries (applyOps ops).metrics_distributed k).getD []).length =
        (ops.map fun op => (opEvalPairs k op).length).sum) ∧
      (∀ k, ((lookupSeries (applyOps ops).metrics_centralized k).getD []).length =
        (ops.map fun op => (opCentPairs k op).length).sum) := by
  intro W ops
  refine ⟨applyOps_losses_distributed ops, applyOps_losses_centralized ops,
    fun k => applyOps_fit_lookup ops k, fun k => applyOps_eval_lookup ops k,
    fun k => applyOps_cent_lookup ops k, ?_, ?_, ?_, ?_, ?_⟩
  · rw [applyOps_losses_distributed, length_flatMap_lossDistributed]
  · rw [applyOps_losses_centralized, length_flatMap_lossCentralized]
  · intro k
    rw [applyOps_fit_lookup, optOf_getD]
    simp [List.length_flatMap, Function.comp_def]
  · intro k
    rw [applyOps_eval_lookup, optOf_getD]
    simp [List.length_flatMap, Function.comp_def]
  · intro k
    rw [applyOps_cent_lookup, optOf_getD]
    simp [List.length_flatMap, Function.comp_def]

/-- C4: the text report is exactly the concatenation, in the fixed source
order, of the rendered non-empty sections, each being a header line naming the
section followed by its body; empty sections contribute nothing, and on a
fresh ledger the report is the empty string. -/
theorem text_report_sections_c4 :
    ∀ (W : Type u) (vshow : W → String) (pfmt : MetricTable W → String)
      (h : History W),
      History.reprStr vshow pfmt h = strConcat (reportSections vshow pfmt h) ∧
      History.reprStr vshow pfmt (History.init (V := W)) = "" := by
  intro W vshow pfmt h
  constructor
  · rw [History.reprStr, reportSections, strConcat_append, strConcat_append,
      strConcat_append, strConcat_append, strConcat_if, strConcat_if,
      strConcat_if, strConcat_if, strConcat_if]
  · simp [History.reprStr, History.init]

/-- Counterexample for C5: with one distributed loss entry at round 0 the
report's entry line is tab-indented, so it is not the bare
`round {round_index}: {loss_value}` line the claim states. -/
theorem text_loss_line_c5_counterexample :
    History.reprStr id pfmtNull exampleLossString ≠
      "History (loss, distributed):\n" ++ "round 0: 0.5\n" ∧
    History.reprStr id pfmtNull exampleLossString =
      "History (loss, distributed):\n" ++ "\tround 0: 0.5\n" := by
  constructor
  · decide
  · decide

/-- C5 (amended): each loss section renders one line per stored entry,
formatted as `\tround {round_index}: {loss_value}` (tab-indented), in stored
order, every line newline-terminated, and the section body is their
concatenation with no extra separators. -/
theorem text_loss_line_c5 :
    ∀ (W : Type u) (vshow : W → String) (l : List (Int × W)),
      lossSectionBody vshow l = strConcat (lossLines vshow l) ∧
      lossLines vshow l =
        l.map fun p => "\tround " ++ toString p.1 ++ ": " ++ vshow p.2 ++ "\n" :=
  fun _ vshow l => ⟨reduceConcat_eq_strConcat (lossLines vshow l), rfl⟩

/-- C6: a metric key present in any of the three tables survives every append
operation with its series extended (never removed or replaced), and a key
appended exactly once from a fresh ledger is present with a one-entry
series. -/
theorem metric_keys_persist_c6 :
    ∀ (W : Type u) (h : History W) (op : HistOp W) (k : String)
      (s : List (Int × W)),
      (lookupSeries h.metrics_distributed_fit k = some s →
        ∃ t, lookupSeries (applyOp h op).metrics_distributed_fit k =
          some (s ++ t)) ∧
      (lookupSeries h.metrics_distributed k = some s →
        ∃ t, lookupSeries (applyOp h op).metrics_distributed k =
          some (s ++ t)) ∧
      (lookupSeries h.metrics_centralized k = some s →
        ∃ t, lookupSeries (applyOp h op).metrics_centralized k =
          some (s ++ t)) ∧
      (∀ (r : Int) (v : W),
        lookupSeries
          ((History.init (V := W)).add_metrics_distributed_fit r
            [(k, v)]).metrics_distributed_fit k = some [(r, v)]) := by
  intro W h op k s
  refine ⟨fun hs => ⟨opFitPairs k op, ?_⟩, fun hs => ⟨opEvalPairs k op, ?_⟩,
    fun hs => ⟨opCentPairs k op, ?_⟩, fun r v => ?_⟩
  · rw [applyOp_fit_lookup, hs]; rfl
  · rw [applyOp_eval_lookup, hs]; rfl
  · rw [applyOp_cent_lookup, hs]; rfl
  · simp [History.add_metrics_distributed_fit, History.init, dictAppend,
      lookupSeries]

/-- Witness for C6: the key `accuracy`, present with series [(1, 0.1)],
survives a further distributed-fit append with its series extended. -/
theorem metric_keys_persist_c6_witness :
    ∃ t, lookupSeries
        (applyOp exampleFit
          (HistOp.addMetricsDistributedFit 2
            [("accuracy", 2/5)])).metrics_distributed_fit "accuracy" =
      some ([((1 : Int), (1/10 : ℚ))] ++ t) :=
  (metric_keys_persist_c6 ℚ exampleFit
    (HistOp.addMetricsDistributedFit 2 [("accuracy", 2/5)]) "accuracy"
    [(1, 1/10)]).1 rfl

/-- C7: every ledger state reachable by append calls is well-formed (every
metric key's series is non-empty), and on such states `repr_json` succeeds:
the round-collapsing transform is only ever invoked on non-empty series, so
its out-of-bounds first-element access never occurs during report
generation. -/
theorem repr_json_guard_c7 :
    ∀ (W : Type u) (ops : List (HistOp W)),
      (applyOps ops).WF ∧ (History.repr_json (applyOps ops)).isSome := by
  intro W ops
  refine ⟨WF_applyOps ops, ?_⟩
  rw [repr_json_eq_spec _ (WF_applyOps ops)]
  rfl

/-- C8: both read operations, with the object state threaded explicitly,
return the state unchanged, and reading twice without intervening appends
yields the same result both times. -/
theorem reads_pure_c8 :
    ∀ (W : Type u) (vshow : W → String) (pfmt : MetricTable W → String)
      (h : History W),
      (History.reprStr_run vshow pfmt h).2 = h ∧
      (History.repr_json_run h).2 = h ∧
      (History.reprStr_run vshow pfmt ((History.reprStr_run vshow pfmt h).2)).1 =
        (History.reprStr_run vshow pfmt h).1 ∧
      (History.repr_json_run ((History.repr_json_run h).2)).1 =
        (History.repr_json_run h).1 :=
  fun _ _ _ _ => ⟨rfl, rfl, rfl, rfl⟩

/-- C9: the five append channels are independent: each loss append only
appends its pair to its own series, and each metrics append leaves both loss
series and the other two metric tables unchanged, touches no key outside the
passed mapping, and extends each addressed key's series by exactly that
call's pairs. -/
theorem append_frame_c9 :
    ∀ (W : Type u) (h : History W) (r : Int) (v : W)
      (m : List (String × W)) (k : String),
      (k ∉ m.map Prod.fst →
        lookupSeries (h.add_metrics_distributed_fit r m).metrics_distributed_fit k =
          lookupSeries h.metrics_distributed_fit k) ∧
      (k ∉ m.map Prod.fst →
        lookupSeries (h.add_metrics_distributed r m).metrics_distributed k =
          lookupSeries h.metrics_distributed k) ∧
      (k ∉ m.map Prod.fst →
        lookupSeries (h.add_metrics_centralized r m).metrics_centralized k =
          lookupSeries h.metrics_centralized k) ∧
      h.add_loss_distributed r v =
        { h with losses_distributed := h.losses_distributed ++ [(r, v)] } ∧
      h.add_loss_centralized r v =
        { h with losses_centralized := h.losses_centralized ++ [(r, v)] } ∧
      (h.add_metrics_distributed_fit r m).losses_distributed = h.losses_distributed ∧
      (h.add_metrics_distributed_fit r m).losses_centralized = h.losses_centralized ∧
      (h.add_metrics_distributed_fit r m).metrics_distributed = h.metrics_distributed ∧
      (h.add_metrics_distributed_fit r m).metrics_centralized = h.metrics_centralized ∧
      (h.add_metrics_distributed r m).losses_distributed = h.losses_distributed ∧
      (h.add_metrics_distributed r m).losses_centralized = h.losses_centralized ∧
      (h.add_metrics_distributed r m).metrics_distributed_fit = h.metrics_distributed_fit ∧
      (h.add_metrics_distributed r m).metrics_centralized = h.metrics_centralized ∧
      (h.add_metrics_centralized r m).losses_distributed = h.losses_distributed ∧
      (h.add_metrics_centralized r m).losses_centralized = h.losses_centralized ∧
      (h.add_metrics_centralized r m).metrics_distributed_fit = h.metrics_distributed_fit ∧
      (h.add_metrics_centralized r m).metrics_distributed = h.metrics_distributed ∧
      (∀ q, lookupSeries (h.add_metrics_distributed_fit r m).metrics_distributed_fit q =
        optAppend (lookupSeries h.metrics_distributed_fit q)
          ((m.filter fun kv => kv.1 == q).map fun kv => (r, kv.2))) ∧
      (∀ q, lookupSeries (h.add_metrics_distributed r m).metrics_distributed q =
        optAppend (lookupSeries h.metrics_distributed q)
          ((m.filter fun kv => kv.1 == q).map fun kv => (r, kv.2))) ∧
      (∀ q, lookupSeries (h.add_metrics_centralized r m).metrics_centralized q =
        optAppend (lookupSeries h.metrics_centralized q)
          ((m.filter fun kv => kv.1 == q).map fun kv => (r, kv.2))) := by
  intro W h r v m k
  exact ⟨fun hk => lookup_foldl_not_mem r m h.metrics_distributed_fit k hk,
    fun hk => lookup_foldl_not_mem r m h.metrics_distributed k hk,
    fun hk => lookup_foldl_not_mem r m h.metrics_centralized k hk,
    rfl, rfl, rfl, rfl, rfl, rfl, rfl, rfl, rfl, rfl, rfl, rfl, rfl, rfl,
    fun q => lookup_foldl_dictAppend r m h.metrics_distributed_fit q,
    fun q => lookup_foldl_dictAppend r m h.metrics_distributed q,
    fun q => lookup_foldl_dictAppend r m h.metrics_centralized q⟩

/-- Witness for C9: a distributed-fit append addressing only `accuracy`
leaves the unrelated key `loss` of the same table untouched. -/
theorem append_frame_c9_witness :
    lookupSeries
        (exampleFit.add_metrics_distributed_fit 2
          [("accuracy", (2/5 : ℚ))]).metrics_distributed_fit "loss" =
      lookupSeries exampleFit.metrics_distributed_fit "loss" :=
  (append_frame_c9 ℚ exampleFit 2 0 [("accuracy", 2/5)] "loss").1 (by decide)

/-- C10: calling any of the three metrics append operations with an empty
mapping is a complete no-op: the state is unchanged, and both reports are
unchanged. -/
theorem empty_metrics_noop_c10 :
    ∀ (W : Type u) (h : History W) (r : Int) (vshow : W → String)
      (pfmt : MetricTable W → String),
      h.add_metrics_distributed_fit r [] = h ∧
      h.add_metrics_distributed r [] = h ∧
      h.add_metrics_centralized r [] = h ∧
      History.reprStr vshow pfmt (h.add_metrics_distributed_fit r []) =
        History.reprStr vshow pfmt h ∧
      History.reprStr vshow pfmt (h.add_metrics_distributed r []) =
        History.reprStr vshow pfmt h ∧
      History.reprStr vshow pfmt (h.add_metrics_centralized r []) =
        History.reprStr vshow pfmt h ∧
      History.repr_json (h.add_metrics_distributed_fit r []) = History.repr_json h ∧
      History.repr_json (h.add_metrics_distributed r []) = History.repr_json h ∧
      History.repr_json (h.add_metrics_centralized r []) = History.repr_json h :=
  fun _ _ _ _ _ => ⟨rfl, rfl, rfl, rfl, rfl, rfl, rfl, rfl, rfl⟩
